import Mathlib

/-!
Verification development for the plan-execution engine in
`src/pages/api/chat.ts` of the LLM-tool-orchestrator repository.

JavaScript runtime values are modelled by the inductive type `JVal`
(numbers as exact rationals; `undefined` is an explicit value, as in JS).
The functions `substituteTemplates`, `sanitizeArgs`, `extractJsonArray`
and the step-execution loop of `handler` are translated directly from the
source; the `{{prev:N.path}}` reference-token regex and the
`(\w+)\[(\d+)\]` array-segment regex are implemented character by
character with JavaScript first-match / greedy / lazy semantics.
-/

/-- Model of a JavaScript runtime value (numbers as exact rationals,
`undefined` explicit, objects as insertion-ordered key/value lists). -/
inductive JVal where
  | null
  | undefined
  | bool (b : Bool)
  | num (q : Rat)
  | str (s : String)
  | arr (elems : List JVal)
  | obj (fields : List (String × JVal))

/-- Whitespace class of the JavaScript regex escape `\s` (ASCII part). -/
def isWsChar (c : Char) : Bool :=
  c = ' ' || c = '\t' || c = '\n' || c = '\r' || c = '\x0b' || c = '\x0c'

/-- Word-character class of the JavaScript regex escape `\w`. -/
def isWordChar (c : Char) : Bool :=
  c.isAlpha || c.isDigit || c = '_'

/-- Value of a list of decimal digit characters, as `parseInt(_, 10)`
computes it on an all-digit string. -/
def digitsToNat (l : List Char) : Nat :=
  l.foldl (fun n c => n * 10 + (c.toNat - 48)) 0

/-- Test whether a list of characters begins with the two closing braces
that end a reference token. -/
def startsWithBraces : List Char → Bool
  | c1 :: c2 :: _ => c1 = '}' && c2 = '}'
  | _ => false

/-- Lazy matching of the tail `([\s\S]+?)\s*}}` of the reference-token
regex: the shortest nonempty capture followed by optional whitespace and
`}}` wins, mirroring the JavaScript lazy quantifier. `acc` holds the
reversed capture so far. -/
def pathLazy : List Char → List Char → Option (List Char)
  | _, [] => none
  | acc, c :: rest =>
    if startsWithBraces (rest.dropWhile isWsChar) then some (c :: acc).reverse
    else pathLazy (c :: acc) rest

/-- Anchored attempt of the reference-token regex
`{{\s*prev:(\d+)\.([\s\S]+?)\s*}}` at the start of the input, returning
the two captures (digits, path). -/
def tryMatchAt : List Char → Option (List Char × List Char)
  | '{' :: '{' :: rest =>
    match rest.dropWhile isWsChar with
    | 'p' :: 'r' :: 'e' :: 'v' :: ':' :: rest2 =>
      let digits := rest2.takeWhile Char.isDigit
      if digits.isEmpty then none
      else
        match rest2.dropWhile Char.isDigit with
        | '.' :: rest4 =>
          match pathLazy [] rest4 with
          | some p => some (digits, p)
          | none => none
        | _ => none
    | _ => none
  | _ => none

/-- First (leftmost) match of the reference-token regex in the input, as
`String.prototype.match` without the global flag returns it. -/
def findFirstMatch : List Char → Option (List Char × List Char)
  | [] => none
  | c :: rest =>
    match tryMatchAt (c :: rest) with
    | some r => some r
    | none => findFirstMatch rest

/-- Anchored attempt of the array-segment regex `(\w+)\[(\d+)\]` at the
start of the input, returning the captures (property, index digits). -/
def segTryAt (l : List Char) : Option (List Char × List Char) :=
  let w := l.takeWhile isWordChar
  if w.isEmpty then none
  else
    match l.dropWhile isWordChar with
    | '[' :: r2 =>
      let d := r2.takeWhile Char.isDigit
      if d.isEmpty then none
      else
        match r2.dropWhile Char.isDigit with
        | ']' :: _ => some (w, d)
        | _ => none
    | _ => none

/-- First (leftmost) match of the array-segment regex in a path segment,
as `key.match(/(\w+)\[(\d+)\]/)` returns it. -/
def segFind : List Char → Option (List Char × List Char)
  | [] => none
  | c :: rest =>
    match segTryAt (c :: rest) with
    | some r => some r
    | none => segFind rest

/-- JavaScript truthiness of a value (`NaN` is not modelled). -/
def truthy : JVal → Bool
  | .null => false
  | .undefined => false
  | .bool b => b
  | .num q => !(decide (q = 0))
  | .str s => !(decide (s = ""))
  | .arr _ => true
  | .obj _ => true

/-- Canonical array-index interpretation of a property key: all digits
with no leading zero (except `"0"` itself), as JavaScript treats string
keys on arrays and strings. -/
def canonIndex : List Char → Option Nat
  | [] => none
  | l =>
    if l.all Char.isDigit && (l = ['0'] || l.head? ≠ some '0')
    then some (digitsToNat l) else none

/-- JavaScript property read `v[key]` for a string key: object own
property, array element or `length`, string character or `length`;
`undefined` otherwise. -/
def getProp (v : JVal) (key : String) : JVal :=
  match v with
  | .obj fields =>
    match fields.lookup key with
    | some w => w
    | none => .undefined
  | .arr xs =>
    if key = "length" then .num xs.length
    else
      match canonIndex key.toList with
      | some n => xs.getD n .undefined
      | none => .undefined
  | .str s =>
    if key = "length" then .num s.toList.length
    else
      match canonIndex key.toList with
      | some n =>
        match s.toList.get? n with
        | some c => .str (String.mk [c])
        | none => .undefined
      | none => .undefined
  | _ => .undefined

/-- JavaScript property read `v[n]` for a numeric key (as in
`acc[prop][parseInt(idx, 10)]`): array element, string character, object
property under the number's canonical string key; `undefined` otherwise. -/
def getIdx (v : JVal) (n : Nat) : JVal :=
  match v with
  | .arr xs => xs.getD n .undefined
  | .str s =>
    match s.toList.get? n with
    | some c => .str (String.mk [c])
    | none => .undefined
  | .obj fields =>
    match fields.lookup (toString n) with
    | some w => w
    | none => .undefined
  | _ => .undefined

/-- One step of the path reducer inside `substituteTemplates`:

```js
const arrayMatch = key.match(/(\w+)\[(\d+)\]/);
if (arrayMatch) {
  const [, prop, idx] = arrayMatch;
  return acc && acc[prop] ? acc[prop][parseInt(idx, 10)] : undefined;
}
return acc ? acc[key] : undefined;
``` -/
def pathStep (acc : JVal) (key : String) : JVal :=
  match segFind key.toList with
  | some (prop, idxDigits) =>
    let propS := String.mk prop
    if truthy acc && truthy (getProp acc propS)
    then getIdx (getProp acc propS) (digitsToNat idxDigits)
    else .undefined
  | none => if truthy acc then getProp acc key else .undefined

/-- Splitting on a separator character, as `String.prototype.split` with
a one-character separator behaves (empty segments preserved). -/
def splitOnChar (sep : Char) : List Char → List (List Char)
  | [] => [[]]
  | c :: rest =>
    let r := splitOnChar sep rest
    if c = sep then [] :: r
    else
      match r with
      | h :: t => (c :: h) :: t
      | [] => [[c]]

/-- The `path.split(".").reduce(...)` walk of `substituteTemplates`. -/
def resolvePath (path : List Char) (prev : JVal) : JVal :=
  (splitOnChar '.' path).foldl (fun acc seg => pathStep acc (String.mk seg)) prev

/-- The strict-equality test `prev === undefined`. -/
def isUndefinedVal : JVal → Bool
  | .undefined => true
  | _ => false

mutual

/-- Translation of `substituteTemplates(value, results)` from
`src/pages/api/chat.ts`: a string is tested against the reference-token
regex and, on a match, replaced wholesale by the value resolved from the
result history (`undefined` for a missing history index); arrays and
objects are rebuilt element-wise / key-wise; other values pass through. -/
def substituteTemplates (value : JVal) (results : List JVal) : JVal :=
  match value with
  | .str s =>
    match findFirstMatch s.toList with
    | some (digits, path) =>
      let prev := results.getD (digitsToNat digits) .undefined
      if isUndefinedVal prev then .undefined else resolvePath path prev
    | none => .str s
  | .arr xs => .arr (substList xs results)
  | .obj fs => .obj (substFields fs results)
  | v => v

/-- Element-wise substitution over an array's elements. -/
def substList (xs : List JVal) (results : List JVal) : List JVal :=
  match xs with
  | [] => []
  | v :: vs => substituteTemplates v results :: substList vs results

/-- Key-wise substitution over an object's fields. -/
def substFields (fs : List (String × JVal)) (results : List JVal) :
    List (String × JVal) :=
  match fs with
  | [] => []
  | (k, v) :: rest => (k, substituteTemplates v results) :: substFields rest results

end

mutual

/-- A value is token-free when no string leaf anywhere inside it matches
the reference-token regex. -/
def tokenFree : JVal → Bool
  | .str s => (findFirstMatch s.toList).isNone
  | .arr xs => tokenFreeList xs
  | .obj fs => tokenFreeFields fs
  | _ => true

/-- Token-freeness of a list of array elements. -/
def tokenFreeList : List JVal → Bool
  | [] => true
  | v :: vs => tokenFree v && tokenFreeList vs

/-- Token-freeness of an object's field values. -/
def tokenFreeFields : List (String × JVal) → Bool
  | [] => true
  | (_, v) :: fs => tokenFree v && tokenFreeFields fs

end

/-- Whitespace accepted between tokens by `JSON.parse` (the four JSON
whitespace characters). -/
def isJsonWs (c : Char) : Bool :=
  c = ' ' || c = '\t' || c = '\n' || c = '\r'

/-- Value of a hexadecimal digit character, if it is one. -/
def hexDigitVal (c : Char) : Option Nat :=
  if '0' ≤ c && c ≤ '9' then some (c.toNat - 48)
  else if 'a' ≤ c && c ≤ 'f' then some (c.toNat - 87)
  else if 'A' ≤ c && c ≤ 'F' then some (c.toNat - 55)
  else none

/-- Body of a JSON string literal after the opening quote: returns the
decoded characters and the input remaining after the closing quote.
`fuel` only bounds recursion; any value above the input length is enough. -/
def parseStringBody (fuel : Nat) (l : List Char) : Option (List Char × List Char) :=
  match fuel with
  | 0 => none
  | fuel + 1 =>
    match l with
    | [] => none
    | '"' :: rest => some ([], rest)
    | '\\' :: e :: rest =>
      match e with
      | '"' => (parseStringBody fuel rest).map (fun (s, r) => ('"' :: s, r))
      | '\\' => (parseStringBody fuel rest).map (fun (s, r) => ('\\' :: s, r))
      | '/' => (parseStringBody fuel rest).map (fun (s, r) => ('/' :: s, r))
      | 'b' => (parseStringBody fuel rest).map (fun (s, r) => ('\x08' :: s, r))
      | 'f' => (parseStringBody fuel rest).map (fun (s, r) => ('\x0c' :: s, r))
      | 'n' => (parseStringBody fuel rest).map (fun (s, r) => ('\n' :: s, r))
      | 'r' => (parseStringBody fuel rest).map (fun (s, r) => ('\r' :: s, r))
      | 't' => (parseStringBody fuel rest).map (fun (s, r) => ('\t' :: s, r))
      | 'u' =>
        match rest with
        | h1 :: h2 :: h3 :: h4 :: rest2 =>
          match hexDigitVal h1, hexDigitVal h2, hexDigitVal h3, hexDigitVal h4 with
          | some a, some b, some c, some d =>
            (parseStringBody fuel rest2).map
              (fun (s, r) => (Char.ofNat (((a * 16 + b) * 16 + c) * 16 + d) :: s, r))
          | _, _, _, _ => none
        | _ => none
      | _ => none
    | c :: rest =>
      if c.toNat < 32 then none
      else (parseStringBody fuel rest).map (fun (s, r) => (c :: s, r))

/-- JSON number literal per the JSON grammar: optional minus, integer
part without a superfluous leading zero, optional fraction, optional
exponent; the exact rational value is returned with the rest of the
input. -/
def parseNumber (l : List Char) : Option (Rat × List Char) :=
  let (neg, l1) :=
    match l with
    | '-' :: r => (true, r)
    | _ => (false, l)
  let intPart := l1.takeWhile Char.isDigit
  let l2 := l1.dropWhile Char.isDigit
  if intPart.isEmpty then none
  else if intPart.length > 1 && intPart.head? = some '0' then none
  else
    let (fracPart, l3) :=
      match l2 with
      | '.' :: r =>
        let f := r.takeWhile Char.isDigit
        (f, r.dropWhile Char.isDigit)
      | _ => ([], l2)
    if l2 ≠ l3 && fracPart.isEmpty then none
    else
      let expRes : Option (Int × List Char) :=
        match l3 with
        | 'e' :: r | 'E' :: r =>
          let (esign, r1) :=
            match r with
            | '+' :: r2 => ((1 : Int), r2)
            | '-' :: r2 => ((-1 : Int), r2)
            | _ => ((1 : Int), r)
          let ed := r1.takeWhile Char.isDigit
          if ed.isEmpty then none
          else some (esign * digitsToNat ed, r1.dropWhile Char.isDigit)
        | _ => some (0, l3)
      match expRes with
      | none => none
      | some (e, l4) =>
        let mantissa : Int := digitsToNat (intPart ++ fracPart)
        let signed : Int := if neg then -mantissa else mantissa
        let e10 : Int := e - fracPart.length
        let value : Rat :=
          if 0 ≤ e10 then ((signed * 10 ^ e10.toNat : Int) : Rat)
          else (signed : Rat) / ((10 ^ (-e10).toNat : Nat) : Rat)
        some (value, l4)

/-- Insertion into an object under construction with JavaScript
last-assignment-wins semantics for duplicate keys. -/
def insertField (fields : List (String × JVal)) (key : String) (v : JVal) :
    List (String × JVal) :=
  match fields with
  | [] => [(key, v)]
  | (k, w) :: rest =>
    if k = key then (k, v) :: rest
    else (k, w) :: insertField rest key v

mutual

/-- Recursive-descent model of the value grammar accepted by
`JSON.parse`, returning the value and the remaining input. `fuel` only
bounds recursion depth; any value above the input length is enough. -/
def parseValue (fuel : Nat) (l : List Char) : Option (JVal × List Char) :=
  match fuel with
  | 0 => none
  | fuel + 1 =>
    match l.dropWhile isJsonWs with
    | 'n' :: 'u' :: 'l' :: 'l' :: rest => some (.null, rest)
    | 't' :: 'r' :: 'u' :: 'e' :: rest => some (.bool true, rest)
    | 'f' :: 'a' :: 'l' :: 's' :: 'e' :: rest => some (.bool false, rest)
    | '"' :: rest =>
      match parseStringBody (rest.length + 1) rest with
      | some (s, rest2) => some (.str (String.mk s), rest2)
      | none => none
    | '[' :: rest =>
      (match (rest.dropWhile isJsonWs) with
       | ']' :: rest2 => some (.arr [], rest2)
       | _ =>
         match parseArrayTail fuel rest [] with
         | some (xs, rest2) => some (.arr xs, rest2)
         | none => none)
    | '{' :: rest =>
      (match (rest.dropWhile isJsonWs) with
       | '}' :: rest2 => some (.obj [], rest2)
       | _ =>
         match parseObjectTail fuel rest [] with
         | some (fs, rest2) => some (.obj fs, rest2)
         | none => none)
    | other =>
      match parseNumber other with
      | some (q, rest) => some (.num q, rest)
      | none => none

/-- Elements of a nonempty JSON array after the opening bracket (or a
comma), accumulated in order. -/
def parseArrayTail (fuel : Nat) (l : List Char) (acc : List JVal) :
    Option (List JVal × List Char) :=
  match fuel with
  | 0 => none
  | fuel + 1 =>
    match parseValue fuel l with
    | none => none
    | some (v, rest) =>
      match rest.dropWhile isJsonWs with
      | ',' :: rest2 => parseArrayTail fuel rest2 (acc ++ [v])
      | ']' :: rest2 => some (acc ++ [v], rest2)
      | _ => none

/-- Members of a nonempty JSON object after the opening brace (or a
comma), accumulated with last-wins duplicate handling. -/
def parseObjectTail (fuel : Nat) (l : List Char) (acc : List (String × JVal)) :
    Option (List (String × JVal) × List Char) :=
  match fuel with
  | 0 => none
  | fuel + 1 =>
    match l.dropWhile isJsonWs with
    | '"' :: rest =>
      match parseStringBody (rest.length + 1) rest with
      | none => none
      | some (k, rest2) =>
        match rest2.dropWhile isJsonWs with
        | ':' :: rest3 =>
          match parseValue fuel rest3 with
          | none => none
          | some (v, rest4) =>
            let acc2 := insertField acc (String.mk k) v
            match rest4.dropWhile isJsonWs with
            | ',' :: rest5 => parseObjectTail fuel rest5 acc2
            | '}' :: rest5 => some (acc2, rest5)
            | _ => none
        | _ => none
    | _ => none

end

/-- Model of `JSON.parse`: one value, possibly surrounded by JSON
whitespace, with nothing after it; `none` models a thrown `SyntaxError`. -/
def parseJson (content : String) : Option JVal :=
  match parseValue (content.toList.length + 1) content.toList with
  | some (v, rest) => if (rest.dropWhile isJsonWs).isEmpty then some v else none
  | none => none

/-- Span matched by the greedy regex `/\[[\s\S]*\]/`: from the first `[`
of the text to the last `]` after it, if both exist. -/
def bracketSpan (l : List Char) : Option (List Char) :=
  match l.dropWhile (fun c => c ≠ '[') with
  | [] => none
  | '[' :: rest =>
    let tailPart := rest.reverse.dropWhile (fun c => c ≠ ']')
    match tailPart with
    | [] => none
    | _ => some ('[' :: tailPart.reverse)
  | _ => none

/-- Translation of `extractJsonArray(content)` from
`src/pages/api/chat.ts`: direct `JSON.parse`, accepted only if it yields
an array; otherwise `JSON.parse` of the first greedy `[...]` span,
accepted only if it yields an array; otherwise `null`. -/
def extractJsonArray (content : String) : Option (List JVal) :=
  match parseJson content with
  | some (.arr xs) => some xs
  | _ =>
    match bracketSpan content.toList with
    | some span =>
      match parseJson (String.mk span) with
      | some (.arr xs) => some xs
      | _ => none
    | none => none

/-- One optional-chaining step `v?.key`: `null` and `undefined`
short-circuit to `undefined`; otherwise an ordinary property read. -/
def optChain (v : JVal) (key : String) : JVal :=
  match v with
  | .null => .undefined
  | .undefined => .undefined
  | w => getProp w key

/-- The schema introspection `toolDef?.function?.parameters?.properties`
performed by `sanitizeArgs`. -/
def schemaProps (toolDef : JVal) : JVal :=
  optChain (optChain (optChain toolDef "function") "parameters") "properties"

/-- Model of `Object.keys`: own enumerable keys of an object, index keys
of an array or string, empty for primitives. -/
def jsObjectKeys : JVal → List String
  | .obj fields => fields.map Prod.fst
  | .arr xs => (List.range xs.length).map toString
  | .str s => (List.range s.toList.length).map toString
  | _ => []

/-- Model of the JavaScript `key in v` test: own-property membership for
objects, index-or-length membership for arrays; `none` models the
`TypeError` thrown when `v` is not an object. -/
def jsHasIn (key : String) (v : JVal) : Option Bool :=
  match v with
  | .obj fields => some (decide (key ∈ fields.map Prod.fst))
  | .arr xs =>
    some (key = "length" ||
      match canonIndex key.toList with
      | some n => decide (n < xs.length)
      | none => false)
  | _ => none

/-- The allow-list loop of `sanitizeArgs`: keep each allowed key present
in the raw arguments with its raw value; `none` models a thrown
`TypeError` escaping the loop. -/
def buildClean (allowed : List String) (rawArgs : JVal) :
    Option (List (String × JVal)) :=
  match allowed with
  | [] => some []
  | key :: ks =>
    match jsHasIn key rawArgs with
    | none => none
    | some true =>
      (buildClean ks rawArgs).map (fun rest => (key, getProp rawArgs key) :: rest)
    | some false => buildClean ks rawArgs

/-- Translation of `sanitizeArgs(toolDef, rawArgs)` from
`src/pages/api/chat.ts`: the allowed key set is
`Object.keys(toolDef?.function?.parameters?.properties)` when that chain
yields a truthy value and is empty otherwise; the result keeps exactly
the allowed keys present in `rawArgs`; if the loop throws, the `catch`
returns `rawArgs` unchanged. -/
def sanitizeArgs (toolDef : JVal) (rawArgs : JVal) : JVal :=
  let props := schemaProps toolDef
  let allowed := if truthy props then jsObjectKeys props else []
  match buildClean allowed rawArgs with
  | some clean => .obj clean
  | none => rawArgs

/-- One registered tool as the engine sees it: a schema object and a
handler from (sanitized) arguments to a result value. -/
structure ToolEntry where
  definition : JVal
  handler : JVal → JVal

/-- One step of a parsed plan: a tool name and its (possibly absent,
modelled as `undefined`) argument value. -/
structure PlanStep where
  tool : String
  args : JVal

/-- Record of one tool-handler call made during plan execution. -/
structure Invocation where
  tool : String
  args : JVal
  result : JVal

/-- Terminal state of the step-execution loop: the fixed refusal
response, the unknown-tool response, or normal completion with the full
result history. -/
inductive ExecResult where
  | refusal (msg : String)
  | notFound (msg : String)
  | done (results : List JVal)

/-- The fixed user-facing refusal message for the sentinel tool name. -/
def refusalMessage : String :=
  "Sorry, no suitable tool is available for that request."

/-- The unknown-tool message, naming the step's tool string verbatim. -/
def notFoundMessage (tool : String) : String :=
  "Tool \"" ++ tool ++ "\" not found for this assistant."

/-- The `step.tool.replace(/^functions\./, "")` prefix strip. -/
def stripFunctionsPrefix (s : String) : String :=
  match s.toList with
  | 'f' :: 'u' :: 'n' :: 'c' :: 't' :: 'i' :: 'o' :: 'n' :: 's' :: '.' :: rest =>
    String.mk rest
  | _ => s

/-- Translation of the step-execution loop of `handler` in
`src/pages/api/chat.ts`, threading the result history and recording each
tool-handler call: per step, strip the `functions.` prefix, short-circuit
on the sentinel name, look the tool up (aborting with the unknown-tool
message on a miss), substitute templates against the current history,
sanitize, invoke the handler, and append its result to the history. -/
def runSteps (tools : List (String × ToolEntry)) :
    List PlanStep → List JVal → List Invocation → ExecResult × List Invocation
  | [], results, trace => (.done results, trace)
  | step :: rest, results, trace =>
    let toolName := stripFunctionsPrefix step.tool
    if toolName = "TOOL_NOT_AVAILABLE" then (.refusal refusalMessage, trace)
    else
      match List.lookup toolName tools with
      | none => (.notFound (notFoundMessage step.tool), trace)
      | some entry =>
        let resolved :=
          if truthy step.args then substituteTemplates step.args results
          else .obj []
        let args := sanitizeArgs entry.definition resolved
        let result := entry.handler args
        runSteps tools rest (results ++ [result]) (trace ++ [⟨toolName, args, result⟩])

/-- Whole-plan execution: the loop started on an empty result history
with no calls recorded. -/
def runPlan (tools : List (String × ToolEntry)) (plan : List PlanStep) :
    ExecResult × List Invocation :=
  runSteps tools plan [] []


/-- Character class from which a plainly-capturable path is built: not a
brace and not whitespace, so the lazy capture takes it verbatim. -/
def plainChar (c : Char) : Bool :=
  !(c = '{') && !(c = '}') && !isWsChar c

/-- Character list of the reference-token text `{{prev:<ds>.<path>}}`. -/
def mkTokenChars (ds path : List Char) : List Char :=
  '{' :: '{' :: 'p' :: 'r' :: 'e' :: 'v' :: ':' :: (ds ++ '.' :: (path ++ ['}', '}']))

/-- The reference-token string `{{prev:<ds>.<path>}}`. -/
def mkToken (ds path : String) : String :=
  String.mk (mkTokenChars ds.toList path.toList)

/-- A usable history-index capture: nonempty and all decimal digits. -/
def validDigits (ds : List Char) : Bool :=
  !ds.isEmpty && ds.all Char.isDigit

/-- A plain path: nonempty, with no braces and no whitespace, so that the
token regex captures it exactly. -/
def validPath (p : List Char) : Bool :=
  !p.isEmpty && p.all plainChar

/-- Registry lookup a step performs, after the prefix strip. -/
def stepEntry (tools : List (String × ToolEntry)) (step : PlanStep) :
    Option ToolEntry :=
  List.lookup (stripFunctionsPrefix step.tool) tools

/-- A step whose execution cannot abort and whose arguments mention no
reference token: not the sentinel, registered, token-free `args`. -/
def normalStep (tools : List (String × ToolEntry)) (step : PlanStep) : Prop :=
  stripFunctionsPrefix step.tool ≠ "TOOL_NOT_AVAILABLE" ∧
  (stepEntry tools step).isSome = true ∧
  tokenFree step.args = true

/-- The invocation a token-free step gives rise to: its handler applied
to its sanitized literal arguments (history-independent). -/
def stepInvoke (tools : List (String × ToolEntry)) (step : PlanStep) : Invocation :=
  match stepEntry tools step with
  | some entry =>
    let args := sanitizeArgs entry.definition
      (if truthy step.args then step.args else .obj [])
    ⟨stripFunctionsPrefix step.tool, args, entry.handler args⟩
  | none => ⟨stripFunctionsPrefix step.tool, .undefined, .undefined⟩

/-- A minimal tool schema object declaring exactly one string parameter,
in the shape the assistants register (`definition.function.parameters.properties`). -/
def demoSchema (key : String) : JVal :=
  .obj [("function", .obj [("parameters", .obj [("properties",
    .obj [(key, .obj [("type", .str "string")])])])])]

/-- A two-tool spy registry with distinguishable constant results. -/
def demoTools : List (String × ToolEntry) :=
  [("t1", ⟨demoSchema "a", fun _ => .str "r1"⟩),
   ("t2", ⟨demoSchema "x", fun _ => .str "r2"⟩)]

theorem plainChar_spec {c : Char} (h : plainChar c = true) :
    c ≠ '{' ∧ c ≠ '}' ∧ isWsChar c = false := by
  simp only [plainChar, Bool.and_eq_true, Bool.not_eq_true', decide_eq_false_iff_not] at h
  exact ⟨h.1.1, h.1.2, h.2⟩

theorem takeWhile_all_append {q : Char → Bool} {l : List Char} (h : l.all q = true)
    {c : Char} (hc : q c = false) (t : List Char) :
    (l ++ c :: t).takeWhile q = l := by
  induction l with
  | nil => simp [List.takeWhile, hc]
  | cons a l ih =>
    simp only [List.all_cons, Bool.and_eq_true] at h
    simp [List.takeWhile, h.1, ih h.2]

theorem dropWhile_all_append {q : Char → Bool} {l : List Char} (h : l.all q = true)
    {c : Char} (hc : q c = false) (t : List Char) :
    (l ++ c :: t).dropWhile q = c :: t := by
  induction l with
  | nil => simp [List.dropWhile, hc]
  | cons a l ih =>
    simp only [List.all_cons, Bool.and_eq_true] at h
    simp [List.dropWhile, h.1, ih h.2]

theorem dropWhile_cons_neg {q : Char → Bool} {c : Char} (hc : q c = false)
    (t : List Char) : (c :: t).dropWhile q = c :: t := by
  simp [List.dropWhile, hc]

theorem pathLazy_append {p : List Char} (hne : p ≠ []) (hp : p.all plainChar = true)
    (acc rest : List Char) :
    pathLazy acc (p ++ '}' :: '}' :: rest) = some (acc.reverse ++ p) := by
  induction p generalizing acc with
  | nil => exact absurd rfl hne
  | cons c p ih =>
    simp only [List.all_cons, Bool.and_eq_true] at hp
    match p, hp with
    | [], _ =>
      have hbr : isWsChar '}' = false := by decide
      simp [pathLazy, dropWhile_cons_neg hbr, startsWithBraces]
    | d :: p2, ⟨hc, hp2⟩ =>
      obtain ⟨hd1, hd2, hd3⟩ := plainChar_spec (by
        simp only [List.all_cons, Bool.and_eq_true] at hp2
        exact hp2.1)
      have hstep : startsWithBraces
          ((d :: (p2 ++ '}' :: '}' :: rest)).dropWhile isWsChar) = false := by
        rw [dropWhile_cons_neg hd3]
        cases p2 <;> simp [startsWithBraces, hd2]
      rw [List.cons_append, pathLazy, List.cons_append, hstep]
      simp only [Bool.false_eq_true, if_false]
      rw [← List.cons_append, ih (by simp) hp2 (c :: acc)]
      simp

theorem tryMatchAt_token {ds p : List Char} (hd : validDigits ds = true)
    (hp : validPath p = true) (rest : List Char) :
    tryMatchAt (mkTokenChars ds p ++ rest) = some (ds, p) := by
  simp only [validDigits, Bool.and_eq_true, Bool.not_eq_true', List.isEmpty_eq_false] at hd
  simp only [validPath, Bool.and_eq_true, Bool.not_eq_true', List.isEmpty_eq_false] at hp
  have hws : isWsChar 'p' = false := by decide
  have hdot : Char.isDigit '.' = false := by decide
  have harr : mkTokenChars ds p ++ rest
      = '{' :: '{' :: 'p' :: 'r' :: 'e' :: 'v' :: ':' :: (ds ++ '.' :: (p ++ '}' :: '}' :: rest)) := by
    simp [mkTokenChars]
  rw [harr, tryMatchAt, dropWhile_cons_neg hws]
  simp only []
  rw [takeWhile_all_append hd.2 hdot, dropWhile_all_append hd.2 hdot]
  rw [if_neg (by simp [hd.1])]
  have hpl := pathLazy_append hp.1 hp.2 [] rest
  simp only [List.reverse_nil, List.nil_append] at hpl
  simp [hpl]

theorem findFirstMatch_token {ds p : List Char} (hd : validDigits ds = true)
    (hp : validPath p = true) (rest : List Char) :
    findFirstMatch (mkTokenChars ds p ++ rest) = some (ds, p) := by
  have h := tryMatchAt_token hd hp rest
  have harr : mkTokenChars ds p ++ rest
      = '{' :: ('{' :: 'p' :: 'r' :: 'e' :: 'v' :: ':' :: (ds ++ '.' :: (p ++ '}' :: '}' :: rest))) := by
    simp [mkTokenChars]
  rw [harr] at h ⊢
  rw [findFirstMatch, h]

theorem pathStep_undefined_acc (key : String) : pathStep .undefined key = .undefined := by
  unfold pathStep
  cases segFind key.toList with
  | none => simp [truthy]
  | some r => obtain ⟨a, b⟩ := r; simp [truthy]

theorem resolvePath_undefined_acc (p : List Char) : resolvePath p .undefined = .undefined := by
  unfold resolvePath
  generalize splitOnChar '.' p = segs
  induction segs with
  | nil => rfl
  | cons s segs ih => simp [List.foldl_cons, pathStep_undefined_acc, ih]

theorem subst_str_of_match {s : String} {ds p : List Char}
    (hm : findFirstMatch s.toList = some (ds, p)) (results : List JVal) :
    substituteTemplates (.str s) results
      = if isUndefinedVal (results.getD (digitsToNat ds) .undefined)
        then .undefined
        else resolvePath p (results.getD (digitsToNat ds) .undefined) := by
  rw [substituteTemplates, hm]

theorem subst_token {ds p : List Char} (hd : validDigits ds = true)
    (hp : validPath p = true) (rest : List Char) (results : List JVal) :
    substituteTemplates (.str (String.mk (mkTokenChars ds p ++ rest))) results
      = if digitsToNat ds < results.length
        then resolvePath p (results.getD (digitsToNat ds) .undefined)
        else .undefined := by
  have hm : findFirstMatch (String.mk (mkTokenChars ds p ++ rest)).toList
      = some (ds, p) := findFirstMatch_token hd hp rest
  rw [subst_str_of_match hm]
  by_cases hlen : digitsToNat ds < results.length
  · rw [if_pos hlen]
    cases hv : results.getD (digitsToNat ds) .undefined <;>
      simp [isUndefinedVal, resolvePath_undefined_acc]
  · rw [if_neg hlen]
    have hv : results.getD (digitsToNat ds) .undefined = .undefined := by
      rw [List.getD_eq_getElem?_getD, List.getElem?_eq_none (by omega)]
      rfl
    rw [hv]
    simp [isUndefinedVal]

mutual

theorem substituteTemplates_id (v : JVal) (results : List JVal)
    (h : tokenFree v = true) : substituteTemplates v results = v := by
  match v with
  | .str s =>
    rw [tokenFree] at h
    rw [substituteTemplates]
    cases hm : findFirstMatch s.toList with
    | none => rfl
    | some r => rw [hm] at h; simp [Option.isNone] at h
  | .arr xs =>
    rw [tokenFree] at h
    rw [substituteTemplates, substList_id xs results h]
  | .obj fs =>
    rw [tokenFree] at h
    rw [substituteTemplates, substFields_id fs results h]
  | .null => rfl
  | .undefined => rfl
  | .bool b => rfl
  | .num q => rfl

theorem substList_id (xs : List JVal) (results : List JVal)
    (h : tokenFreeList xs = true) : substList xs results = xs := by
  match xs with
  | [] => rfl
  | v :: vs =>
    rw [tokenFreeList, Bool.and_eq_true] at h
    rw [substList, substituteTemplates_id v results h.1, substList_id vs results h.2]

theorem substFields_id (fs : List (String × JVal)) (results : List JVal)
    (h : tokenFreeFields fs = true) : substFields fs results = fs := by
  match fs with
  | [] => rfl
  | (k, v) :: rest =>
    rw [tokenFreeFields, Bool.and_eq_true] at h
    rw [substFields, substituteTemplates_id v results h.1, substFields_id rest results h.2]

end

theorem runSteps_normal_leading (tools : List (String × ToolEntry))
    (pre rest : List PlanStep) (results : List JVal) (trace : List Invocation)
    (h : ∀ s ∈ pre, normalStep tools s) :
    runSteps tools (pre ++ rest) results trace
      = runSteps tools rest
          (results ++ (pre.map (stepInvoke tools)).map Invocation.result)
          (trace ++ pre.map (stepInvoke tools)) := by
  induction pre generalizing results trace with
  | nil => simp
  | cons step pre ih =>
    obtain ⟨h1, h2, h3⟩ := h step (by simp)
    obtain ⟨entry, hentry⟩ := Option.isSome_iff_exists.mp h2
    rw [List.cons_append, runSteps, if_neg (by simp [h1])]
    rw [show List.lookup (stripFunctionsPrefix step.tool) tools = some entry from hentry]
    have hsub : (if truthy step.args then substituteTemplates step.args results
        else .obj []) = (if truthy step.args then step.args else .obj []) := by
      rw [substituteTemplates_id step.args results h3]
    rw [hsub]
    show runSteps tools (pre ++ rest)
        (results ++ [entry.handler (sanitizeArgs entry.definition
          (if truthy step.args = true then step.args else JVal.obj []))])
        (trace ++ [⟨stripFunctionsPrefix step.tool,
          sanitizeArgs entry.definition
            (if truthy step.args = true then step.args else JVal.obj []),
          entry.handler (sanitizeArgs entry.definition
            (if truthy step.args = true then step.args else JVal.obj []))⟩])
      = _
    rw [ih _ _ (fun s hs => h s (List.mem_cons_of_mem _ hs))]
    simp only [List.map_cons]
    rw [show stepInvoke tools step
        = ⟨stripFunctionsPrefix step.tool,
           sanitizeArgs entry.definition (if truthy step.args then step.args else .obj []),
           entry.handler (sanitizeArgs entry.definition
             (if truthy step.args then step.args else .obj []))⟩ by
      unfold stepInvoke
      rw [show stepEntry tools step = some entry from hentry]]
    simp

theorem buildClean_obj (allowed : List String) (fields : List (String × JVal)) :
    buildClean allowed (.obj fields)
      = some ((allowed.filter (fun k => decide (k ∈ fields.map Prod.fst))).map
          (fun k => (k, getProp (.obj fields) k))) := by
  induction allowed with
  | nil => rfl
  | cons key ks ih =>
    by_cases hk : key ∈ fields.map Prod.fst
    · have hj : jsHasIn key (.obj fields) = some true := by simp [jsHasIn, hk]
      rw [buildClean, hj]
      show (buildClean ks (.obj fields)).map
          (fun rest => (key, getProp (.obj fields) key) :: rest) = _
      rw [ih]
      simp [List.filter_cons, hk]
    · have hj : jsHasIn key (.obj fields) = some false := by simp [jsHasIn, hk]
      rw [buildClean, hj]
      show buildClean ks (.obj fields) = _
      rw [ih]
      simp [List.filter_cons, hk]

theorem lookup_map_graph (f : String → JVal) (ks : List String) (k : String)
    (h : k ∈ ks) :
    List.lookup k (ks.map (fun x => (x, f x))) = some (f k) := by
  induction ks with
  | nil => simp at h
  | cons a ks ih =>
    by_cases hk : k = a
    · subst hk
      simp [List.lookup]
    · rcases List.mem_cons.mp h with h1 | h2
      · exact absurd h1 hk
      · simp only [List.map_cons, List.lookup]
        rw [show (k == a) = false from beq_eq_false_iff_ne.mpr hk]
        exact ih h2

theorem filter_eq_nil_of_not_mem (ks : List String) (k : String) (h : k ∉ ks) :
    ks.filter (fun x => decide (x = k)) = [] := by
  induction ks with
  | nil => rfl
  | cons a ks ih =>
    have ha : a ≠ k := fun hak => h (hak ▸ List.mem_cons_self a ks)
    simp only [List.filter_cons]
    rw [if_neg (by simpa using ha)]
    exact ih (fun hm => h (List.mem_cons_of_mem _ hm))

theorem filter_eq_singleton_of_nodup (ks : List String) (k : String)
    (hmem : k ∈ ks) (hnd : ks.Nodup) :
    ks.filter (fun x => decide (x = k)) = [k] := by
  induction ks with
  | nil => simp at hmem
  | cons a ks ih =>
    rcases List.nodup_cons.mp hnd with ⟨hna, hnd2⟩
    by_cases hk : a = k
    · subst hk
      simp only [List.filter_cons]
      rw [if_pos (by simp)]
      rw [filter_eq_nil_of_not_mem ks a hna]
    · rcases List.mem_cons.mp hmem with h1 | h2
      · exact absurd h1.symm hk
      · simp only [List.filter_cons]
        rw [if_neg (by simpa using hk)]
        exact ih h2 hnd2

theorem segTryAt_seg {w d : List Char} (hw : w ≠ []) (hwall : w.all isWordChar = true)
    (hd : d ≠ []) (hdall : d.all Char.isDigit = true) (rest : List Char) :
    segTryAt (w ++ '[' :: (d ++ ']' :: rest)) = some (w, d) := by
  have hbr : isWordChar '[' = false := by decide
  have hket : Char.isDigit ']' = false := by decide
  unfold segTryAt
  rw [takeWhile_all_append hwall hbr, dropWhile_all_append hwall hbr]
  rw [if_neg (by simp [hw])]
  simp only []
  rw [takeWhile_all_append hdall hket, dropWhile_all_append hdall hket]
  rw [if_neg (by simp [hd])]
  rfl

theorem segFind_seg {w d : List Char} (hw : w ≠ []) (hwall : w.all isWordChar = true)
    (hd : d ≠ []) (hdall : d.all Char.isDigit = true) (rest : List Char) :
    segFind (w ++ '[' :: (d ++ ']' :: rest)) = some (w, d) := by
  have h := segTryAt_seg hw hwall hd hdall rest
  match w, hw with
  | c :: w2, _ =>
    rw [List.cons_append] at h ⊢
    rw [segFind, h]

/-- C9: a value containing no reference token at any nesting depth
resolves, against any history, to a structurally equal value: strings
pass through verbatim, non-string primitives are unchanged, and arrays
and objects are rebuilt with the same length, the same keys in the same
order, and structurally equal elements. -/
theorem claim9_idempotence_on_token_free_values (v : JVal) (results : List JVal)
    (h : tokenFree v = true) : substituteTemplates v results = v :=
  substituteTemplates_id v results h

/-- Witness for C9 at a concrete nested token-free value (including a
string containing a bare, non-matching `prev:` literal). -/
theorem claim9_witness :
    substituteTemplates
      (.obj [("a", .str "hello prev: world"),
             ("b", .arr [.num 3, .null, .str "plain"]),
             ("c", .obj [("d", .bool true)])])
      [.obj [("x", .num 1)]]
    = .obj [("a", .str "hello prev: world"),
            ("b", .arr [.num 3, .null, .str "plain"]),
            ("c", .obj [("d", .bool true)])] :=
  claim9_idempotence_on_token_free_values _ _ (by rfl)

/-- C10: a string whose text is a reference token followed by arbitrary
further characters — in particular further reference tokens — resolves to
the first token's value alone; every later character is discarded. The
second conjunct shows a concrete two-token string collapsing to the first
token's resolved value. -/
theorem claim10_leftmost_token_wins :
    (∀ (ds p : String) (rest : List Char) (results : List JVal),
      validDigits ds.toList = true → validPath p.toList = true →
      substituteTemplates (.str (String.mk ((mkToken ds p).toList ++ rest))) results
        = if digitsToNat ds.toList < results.length
          then resolvePath p.toList (results.getD (digitsToNat ds.toList) .undefined)
          else .undefined)
    ∧ substituteTemplates
        (.str (mkToken "0" "x" ++ " and " ++ mkToken "1" "y"))
        [.obj [("x", .num 1)], .obj [("y", .num 2)]] = .num 1 := by
  constructor
  · intro ds p rest results hd hp
    exact subst_token hd hp rest results
  · rfl

/-- Witness for C10's quantified part: a token followed by a second token
resolves to the first token's value only. -/
theorem claim10_witness :
    substituteTemplates
      (.str (String.mk ((mkToken "1" "y").toList ++ (mkToken "0" "x").toList)))
      [.obj [("x", .num 1)], .obj [("y", .num 2)]] = .num 2 := by
  have h := claim10_leftmost_token_wins.1 "1" "y" (mkToken "0" "x").toList
    [.obj [("x", .num 1)], .obj [("y", .num 2)]] (by rfl) (by rfl)
  rw [h]
  rfl

/-- C1: first conjunct — a reference-token string `{{prev:N.path}}`
resolves through the path walk on history entry `N` when `N` is within
the history's bounds and to `undefined` when it is not. Second conjunct —
such an `undefined` is no error at the engine layer: a step whose
argument object carries an out-of-bounds reference token (for a key the
schema declares) still invokes its tool handler, with `undefined` bound
to that argument, and execution proceeds. -/
theorem claim1_reference_bounds_and_undefined_flow :
    (∀ (ds p : String) (results : List JVal),
      validDigits ds.toList = true → validPath p.toList = true →
      substituteTemplates (.str (mkToken ds p)) results
        = if digitsToNat ds.toList < results.length
          then resolvePath p.toList (results.getD (digitsToNat ds.toList) .undefined)
          else .undefined)
    ∧ (∀ (tools : List (String × ToolEntry)) (step : PlanStep)
        (rest : List PlanStep) (results : List JVal) (trace : List Invocation)
        (entry : ToolEntry) (k : String) (ds p : String)
        (props : List (String × JVal)),
        stripFunctionsPrefix step.tool ≠ "TOOL_NOT_AVAILABLE" →
        List.lookup (stripFunctionsPrefix step.tool) tools = some entry →
        step.args = .obj [(k, .str (mkToken ds p))] →
        validDigits ds.toList = true → validPath p.toList = true →
        results.length ≤ digitsToNat ds.toList →
        schemaProps entry.definition = .obj props →
        k ∈ props.map Prod.fst → (props.map Prod.fst).Nodup →
        runSteps tools (step :: rest) results trace
          = runSteps tools rest
              (results ++ [entry.handler (.obj [(k, .undefined)])])
              (trace ++ [⟨stripFunctionsPrefix step.tool, .obj [(k, .undefined)],
                entry.handler (.obj [(k, .undefined)])⟩])) := by
  constructor
  · intro ds p results hd hp
    have h := subst_token hd hp [] results
    rw [List.append_nil] at h
    exact h
  · intro tools step rest results trace entry k ds p props
      hsent hlook hargs hd hp hlen hprops hkmem hnd
    have htok : substituteTemplates (.str (mkToken ds p)) results = .undefined := by
      have h := subst_token hd hp [] results
      rw [List.append_nil] at h
      rw [show mkToken ds p = String.mk (mkTokenChars ds.toList p.toList) from rfl, h]
      rw [if_neg (by omega)]
    have hresolved : substituteTemplates step.args results = .obj [(k, .undefined)] := by
      rw [hargs, substituteTemplates]
      rw [substFields, substFields, htok]
    have hsan : sanitizeArgs entry.definition (.obj [(k, .undefined)]) = .obj [(k, .undefined)] := by
      unfold sanitizeArgs
      rw [hprops]
      show (match buildClean (jsObjectKeys (.obj props)) (.obj [(k, .undefined)]) with
        | some clean => JVal.obj clean
        | none => JVal.obj [(k, .undefined)]) = _
      rw [show jsObjectKeys (.obj props) = props.map Prod.fst from rfl]
      rw [buildClean_obj]
      have hpred : (fun x => decide (x ∈ ([(k, JVal.undefined)].map Prod.fst))) =
          (fun x => decide (x = k)) := by
        funext x
        simp
      rw [hpred, filter_eq_singleton_of_nodup _ _ hkmem hnd]
      show JVal.obj [(k, getProp (.obj [(k, JVal.undefined)]) k)] = _
      rw [show getProp (.obj [(k, JVal.undefined)]) k = .undefined by
        simp [getProp, List.lookup]]
    rw [runSteps, if_neg (by simp [hsent]), hlook]
    show runSteps tools rest
        (results ++ [entry.handler (sanitizeArgs entry.definition
          (if truthy step.args = true then substituteTemplates step.args results
           else .obj []))])
        (trace ++ [⟨stripFunctionsPrefix step.tool,
          sanitizeArgs entry.definition
            (if truthy step.args = true then substituteTemplates step.args results
             else .obj []),
          entry.handler (sanitizeArgs entry.definition
            (if truthy step.args = true then substituteTemplates step.args results
             else .obj []))⟩])
      = _
    rw [show truthy step.args = true by rw [hargs]; rfl]
    rw [if_pos rfl, hresolved, hsan]

/-- Witness for C1: the out-of-bounds token `{{prev:2.a}}` resolves to
`undefined` against a one-entry history, and a plan step carrying the
out-of-bounds token `{{prev:3.q}}` under the schema-declared key `x`
still invokes tool `t2`'s handler with `undefined` for `x`. -/
theorem claim1_witness :
    substituteTemplates (.str (mkToken "2" "a")) [.obj [("a", .num 5)]] = .undefined
    ∧ runSteps demoTools [⟨"t2", .obj [("x", .str (mkToken "3" "q"))]⟩] [] []
        = runSteps demoTools [] [.str "r2"]
            [⟨"t2", .obj [("x", .undefined)], .str "r2"⟩] := by
  constructor
  · have h := claim1_reference_bounds_and_undefined_flow.1 "2" "a"
      [.obj [("a", .num 5)]] (by rfl) (by rfl)
    rw [h]
    rfl
  · have h := claim1_reference_bounds_and_undefined_flow.2 demoTools
      ⟨"t2", .obj [("x", .str (mkToken "3" "q"))]⟩ [] [] []
      ⟨demoSchema "x", fun _ => .str "r2"⟩ "x" "3" "q"
      [("x", .obj [("type", .str "string")])]
      (by decide) (by rfl) (by rfl) (by rfl) (by rfl) (by decide) (by rfl)
      (by decide) (by decide)
    exact h

/-- C2: a plan of steps that are registered, non-sentinel and free of
reference tokens executes to completion: the recorded call trace has
exactly one invocation per step, in list order, each naming that step's
(prefix-stripped) tool with its sanitized literal arguments, and the
final history is exactly the per-step handler results in step order. -/
theorem claim2_inorder_execution (tools : List (String × ToolEntry))
    (plan : List PlanStep) (h : ∀ s ∈ plan, normalStep tools s) :
    runPlan tools plan
      = (.done ((plan.map (stepInvoke tools)).map Invocation.result),
         plan.map (stepInvoke tools)) := by
  unfold runPlan
  rw [show plan = plan ++ [] by simp]
  rw [runSteps_normal_leading tools plan [] [] [] h]
  simp [runSteps]

/-- Witness for C2: a two-step token-free plan against the spy registry
invokes `t1` then `t2` exactly once each, with the spies' results
recorded in order. -/
theorem claim2_witness :
    runPlan demoTools
      [⟨"t1", .obj [("a", .num 1), ("b", .num 2)]⟩, ⟨"functions.t2", .undefined⟩]
      = (.done [.str "r1", .str "r2"],
         [⟨"t1", .obj [("a", .num 1)], .str "r1"⟩, ⟨"t2", .obj [], .str "r2"⟩]) := by
  have h := claim2_inorder_execution demoTools
    [⟨"t1", .obj [("a", .num 1), ("b", .num 2)]⟩, ⟨"functions.t2", .undefined⟩]
    (by intro s hs; fin_cases hs <;> exact ⟨by decide, by rfl, by rfl⟩)
  rw [h]
  rfl

/-- C6 counterexample: in the plan `[t1, TOOL_NOT_AVAILABLE]` the
sentinel is only reached after step 0 has fully executed — the run ends
in the fixed refusal, yet one tool handler has been invoked, so the
sentinel does not stop execution "before any step runs" nor keep the
handler count at zero. -/
theorem claim6_counterexample :
    (runPlan demoTools [⟨"t1", .undefined⟩, ⟨"TOOL_NOT_AVAILABLE", .undefined⟩]).1
        = .refusal refusalMessage
    ∧ (runPlan demoTools [⟨"t1", .undefined⟩, ⟨"TOOL_NOT_AVAILABLE", .undefined⟩]).2
        = [⟨"t1", .obj [], .str "r1"⟩] := ⟨rfl, rfl⟩

/-- C6 (amended): the sentinel aborts the plan at the step that carries
it: every earlier step executes normally and is recorded, and the run
ends in the fixed refusal message with nothing after the sentinel
executing; only when the sentinel is the first step are zero handlers
invoked. -/
theorem claim6_sentinel_aborts_at_its_step (tools : List (String × ToolEntry))
    (pre rest : List PlanStep) (sent : PlanStep)
    (hpre : ∀ s ∈ pre, normalStep tools s)
    (hsent : stripFunctionsPrefix sent.tool = "TOOL_NOT_AVAILABLE") :
    runPlan tools (pre ++ sent :: rest)
      = (.refusal refusalMessage, pre.map (stepInvoke tools)) := by
  unfold runPlan
  rw [runSteps_normal_leading tools pre (sent :: rest) [] [] hpre]
  rw [runSteps, if_pos (by rw [hsent])]
  simp

/-- Witness for C6 (amended): with one normal step before the sentinel,
the run refuses after exactly that step's invocation; with the sentinel
first, the refusal comes with an empty trace. -/
theorem claim6_witness :
    runPlan demoTools [⟨"t1", .undefined⟩, ⟨"TOOL_NOT_AVAILABLE", .undefined⟩]
        = (.refusal refusalMessage,
           [⟨"t1", .undefined⟩].map (stepInvoke demoTools))
    ∧ runPlan demoTools [⟨"TOOL_NOT_AVAILABLE", .undefined⟩]
        = (.refusal refusalMessage, []) := by
  constructor
  · exact claim6_sentinel_aborts_at_its_step demoTools [⟨"t1", .undefined⟩] []
      ⟨"TOOL_NOT_AVAILABLE", .undefined⟩
      (by intro s hs; fin_cases hs; exact ⟨by decide, by rfl, by rfl⟩)
      (by rfl)
  · have h := claim6_sentinel_aborts_at_its_step demoTools [] []
      ⟨"TOOL_NOT_AVAILABLE", .undefined⟩ (by intro s hs; cases hs) (by rfl)
    simpa using h

/-- C7: a step naming an unregistered tool (after the prefix strip)
aborts the run at that step with the unknown-tool message naming the
step's tool string verbatim; its handler is never invoked, nothing after
it executes, and every earlier step executed normally in order with its
invocation recorded. -/
theorem claim7_unknown_tool_aborts (tools : List (String × ToolEntry))
    (pre rest : List PlanStep) (bad : PlanStep)
    (hpre : ∀ s ∈ pre, normalStep tools s)
    (hnots : stripFunctionsPrefix bad.tool ≠ "TOOL_NOT_AVAILABLE")
    (hmiss : List.lookup (stripFunctionsPrefix bad.tool) tools = none) :
    runPlan tools (pre ++ bad :: rest)
      = (.notFound ("Tool \"" ++ bad.tool ++ "\" not found for this assistant."),
         pre.map (stepInvoke tools)) := by
  unfold runPlan
  rw [runSteps_normal_leading tools pre (bad :: rest) [] [] hpre]
  rw [runSteps, if_neg (by simp [hnots]), hmiss]
  simp [notFoundMessage]

/-- Witness for C7: `[t1, bogus, t2]` executes `t1`, aborts on `bogus`
with the message naming it, and never reaches `t2`. -/
theorem claim7_witness :
    runPlan demoTools [⟨"t1", .undefined⟩, ⟨"bogus", .undefined⟩, ⟨"t2", .undefined⟩]
        = (.notFound "Tool \"bogus\" not found for this assistant.",
           [⟨"t1", .obj [], .str "r1"⟩]) := by
  have h := claim7_unknown_tool_aborts demoTools [⟨"t1", .undefined⟩] [⟨"t2", .undefined⟩]
    ⟨"bogus", .undefined⟩
    (by intro s hs; fin_cases hs; exact ⟨by decide, by rfl, by rfl⟩)
    (by decide) (by rfl)
  rw [show ([⟨"t1", .undefined⟩] : List PlanStep) ++ ⟨"bogus", .undefined⟩ :: [⟨"t2", .undefined⟩]
      = [⟨"t1", .undefined⟩, ⟨"bogus", .undefined⟩, ⟨"t2", .undefined⟩] from rfl] at h
  rw [h]
  rfl

/-- C3 counterexample: the double-encoded plan text whose inner array is
`["a"]` — the outer text parses as a JSON string whose content parses as
that array — is rejected by the normalizer: the string result of the
direct parse is never parsed a second time, and the greedy bracket span
of the outer text (still carrying escape backslashes) is not valid JSON. -/
theorem claim3_counterexample :
    parseJson "\"[\\\"a\\\"]\"" = some (.str "[\"a\"]")
    ∧ parseJson "[\"a\"]" = some (.arr [.str "a"])
    ∧ extractJsonArray "\"[\\\"a\\\"]\"" = none := ⟨rfl, rfl, rfl⟩

/-- C3 (amended): the normalizer tries a direct JSON parse and accepts a
parsed array; otherwise it JSON-parses the first greedy `[...]` span and
accepts an array; otherwise it fails. There is no second decoding of a
string-valued parse result, so a double-encoded plan succeeds only when
the bracket span of its outer text happens to be valid JSON itself (as
for `"[1,2]"`), and fails when the encoded plan contains strings. -/
theorem claim3_normalizer_priority :
    (∀ (s : String) (xs : List JVal),
      parseJson s = some (.arr xs) → extractJsonArray s = some xs)
    ∧ extractJsonArray "\"[1,2]\"" = some [.num 1, .num 2]
    ∧ extractJsonArray
        "Sure! ```json\n[\x7b\"tool\":\"getCurrentDate\",\"args\":\x7b\x7d\x7d]\n```"
        = some [.obj [("tool", .str "getCurrentDate"), ("args", .obj [])]] := by
  refine ⟨?_, rfl, rfl⟩
  intro s xs h
  rw [extractJsonArray, h]

/-- Witness for C3's quantified conjunct at the concrete direct-parse
text `[3]`. -/
theorem claim3_witness : extractJsonArray "[3]" = some [.num 3] :=
  claim3_normalizer_priority.1 "[3]" [.num 3] (by rfl)

/-- C4 counterexample: with history `[{ m: "ab" }]`, the property `m` is
truthy but not an array, and `{{prev:0.m[0]}}` resolves to the string
character `"a"` — not to `undefined` as the claim requires for every
non-array target. -/
theorem claim4_counterexample :
    substituteTemplates (.str (mkToken "0" "m[0]")) [.obj [("m", .str "ab")]]
        = .str "a"
    ∧ substituteTemplates (.str (mkToken "0" "m[0]")) [.obj [("m", .str "ab")]]
        ≠ .undefined := by
  refine ⟨rfl, ?_⟩
  intro h
  have h2 : JVal.str "a" = JVal.undefined := by
    rw [← show substituteTemplates (.str (mkToken "0" "m[0]"))
        [.obj [("m", .str "ab")]] = .str "a" from rfl]
    exact h
  exact JVal.noConfusion h2

/-- C4 (amended): a segment `name[k]` first reads property `name`, then
indexes position `k` into its value; the walk yields `undefined` when the
property is missing (or its value falsy) and when indexing misses — in
particular an out-of-bounds index into an array — but a truthy non-array
value can still be indexed (strings yield a character, as the
counterexample shows). On an array-valued property the segment yields
element `k`, and the concrete `meetings[0].meetingId` walk yields `"m1"`. -/
theorem claim4_bracket_segment_resolution :
    (∀ (w d : List Char) (fields : List (String × JVal)),
      w ≠ [] → w.all isWordChar = true → d ≠ [] → d.all Char.isDigit = true →
      fields.lookup (String.mk w) = none →
      pathStep (.obj fields) (String.mk (w ++ '[' :: (d ++ [']']))) = .undefined)
    ∧ (∀ (w d : List Char) (fields : List (String × JVal)) (xs : List JVal),
      w ≠ [] → w.all isWordChar = true → d ≠ [] → d.all Char.isDigit = true →
      fields.lookup (String.mk w) = some (.arr xs) →
      pathStep (.obj fields) (String.mk (w ++ '[' :: (d ++ [']'])))
        = xs.getD (digitsToNat d) .undefined)
    ∧ substituteTemplates (.str (mkToken "0" "meetings[0].meetingId"))
        [.obj [("meetings", .arr [.obj [("meetingId", .str "m1")]])]]
        = .str "m1" := by
  refine ⟨?_, ?_, rfl⟩
  · intro w d fields hw hwall hd hdall hmiss
    have hf := segFind_seg hw hwall hd hdall []
    unfold pathStep
    rw [show (String.mk (w ++ '[' :: (d ++ [']']))).toList
        = w ++ '[' :: (d ++ ']' :: []) from rfl, hf]
    show (if truthy (.obj fields) && truthy (getProp (.obj fields) (String.mk w))
      then getIdx (getProp (.obj fields) (String.mk w)) (digitsToNat d)
      else .undefined) = _
    rw [show getProp (.obj fields) (String.mk w) = .undefined by
      rw [getProp, hmiss]]
    rfl
  · intro w d fields xs hw hwall hd hdall harr
    have hf := segFind_seg hw hwall hd hdall []
    unfold pathStep
    rw [show (String.mk (w ++ '[' :: (d ++ [']']))).toList
        = w ++ '[' :: (d ++ ']' :: []) from rfl, hf]
    show (if truthy (.obj fields) && truthy (getProp (.obj fields) (String.mk w))
      then getIdx (getProp (.obj fields) (String.mk w)) (digitsToNat d)
      else .undefined) = _
    rw [show getProp (.obj fields) (String.mk w) = .arr xs by
      rw [getProp, harr]]
    rfl

/-- Witness for C4 (amended): a missing property yields `undefined`, an
in-range array index yields the element, and an out-of-range array index
yields `undefined`. -/
theorem claim4_witness :
    pathStep (.obj [("k", .num 7)]) "m[0]" = .undefined
    ∧ pathStep (.obj [("m", .arr [.str "e0", .str "e1"])]) "m[1]" = .str "e1"
    ∧ pathStep (.obj [("m", .arr [.str "e0", .str "e1"])]) "m[5]" = .undefined := by
  refine ⟨?_, ?_, ?_⟩
  · exact claim4_bracket_segment_resolution.1 ['m'] ['0'] [("k", .num 7)]
      (by decide) (by decide) (by decide) (by decide) (by rfl)
  · have h := claim4_bracket_segment_resolution.2.1 ['m'] ['1']
      [("m", .arr [.str "e0", .str "e1"])] [.str "e0", .str "e1"]
      (by decide) (by decide) (by decide) (by decide) (by rfl)
    rw [show (String.mk (['m'] ++ '[' :: (['1'] ++ [']']))) = "m[1]" from rfl] at h
    rw [h]
    rfl
  · have h := claim4_bracket_segment_resolution.2.1 ['m'] ['5']
      [("m", .arr [.str "e0", .str "e1"])] [.str "e0", .str "e1"]
      (by decide) (by decide) (by decide) (by decide) (by rfl)
    rw [show (String.mk (['m'] ++ '[' :: (['5'] ++ [']']))) = "m[5]" from rfl] at h
    rw [h]
    rfl

/-- C5: when the schema chain yields a properties object, sanitization
returns exactly the schema-ordered keys that also occur in the resolved
arguments, each bound to its original value: the key set is the
intersection of schema keys and argument keys, values are passed through
untouched, no key outside the schema is ever added, and in particular
`{a: 1, b: 2}` against a schema declaring only `a` yields `{a: 1}`. -/
theorem claim5_sanitizer_intersection :
    (∀ (toolDef : JVal) (props fields : List (String × JVal)),
      schemaProps toolDef = .obj props →
      sanitizeArgs toolDef (.obj fields)
        = .obj (((props.map Prod.fst).filter
              (fun k => decide (k ∈ fields.map Prod.fst))).map
            (fun k => (k, getProp (.obj fields) k))))
    ∧ (∀ (toolDef : JVal) (props fields : List (String × JVal)) (k : String),
      schemaProps toolDef = .obj props →
      (k ∈ jsObjectKeys (sanitizeArgs toolDef (.obj fields))
        ↔ k ∈ props.map Prod.fst ∧ k ∈ fields.map Prod.fst))
    ∧ (∀ (toolDef : JVal) (props fields : List (String × JVal)) (k : String),
      schemaProps toolDef = .obj props →
      k ∈ jsObjectKeys (sanitizeArgs toolDef (.obj fields)) →
      getProp (sanitizeArgs toolDef (.obj fields)) k = getProp (.obj fields) k)
    ∧ sanitizeArgs (demoSchema "a") (.obj [("a", .num 1), ("b", .num 2)])
        = .obj [("a", .num 1)] := by
  have hmain : ∀ (toolDef : JVal) (props fields : List (String × JVal)),
      schemaProps toolDef = .obj props →
      sanitizeArgs toolDef (.obj fields)
        = .obj (((props.map Prod.fst).filter
              (fun k => decide (k ∈ fields.map Prod.fst))).map
            (fun k => (k, getProp (.obj fields) k))) := by
    intro toolDef props fields hprops
    unfold sanitizeArgs
    rw [hprops]
    show (match buildClean (jsObjectKeys (.obj props)) (.obj fields) with
      | some clean => JVal.obj clean
      | none => JVal.obj fields) = _
    rw [show jsObjectKeys (.obj props) = props.map Prod.fst from rfl]
    rw [buildClean_obj]
  refine ⟨hmain, ?_, ?_, ?_⟩
  · intro toolDef props fields k hprops
    rw [hmain toolDef props fields hprops]
    show k ∈ ((((props.map Prod.fst).filter
        (fun k => decide (k ∈ fields.map Prod.fst))).map
        (fun k => (k, getProp (.obj fields) k))).map Prod.fst) ↔ _
    rw [List.map_map]
    simp [List.mem_filter]
  · intro toolDef props fields k hprops hk
    rw [hmain toolDef props fields hprops] at hk ⊢
    show (match (((props.map Prod.fst).filter
        (fun k => decide (k ∈ fields.map Prod.fst))).map
        (fun k => (k, getProp (.obj fields) k))).lookup k with
      | some w => w
      | none => JVal.undefined) = _
    rw [lookup_map_graph (fun k => getProp (.obj fields) k)
      ((props.map Prod.fst).filter (fun k => decide (k ∈ fields.map Prod.fst))) k
      (by
        have hk2 := hk
        show k ∈ _
        simp only [jsObjectKeys, List.map_map] at hk2
        simpa using hk2)]
  · exact hmain (demoSchema "a")
      [("a", .obj [("type", .str "string")])]
      [("a", .num 1), ("b", .num 2)] (by rfl)

/-- Witness for C5 at a two-key schema: the argument keys are cut down to
the schema-and-argument intersection with values preserved. -/
theorem claim5_witness :
    sanitizeArgs (demoSchema "x") (.obj [("x", .str "v"), ("y", .num 9)])
        = .obj [("x", .str "v")] := by
  have h := claim5_sanitizer_intersection.1 (demoSchema "x")
    [("x", .obj [("type", .str "string")])]
    [("x", .str "v"), ("y", .num 9)] (by rfl)
  rw [h]
  rfl

/-- C8 counterexample: against a malformed schema (no
`function.parameters.properties` chain) the sanitizer does not return the
resolved arguments unchanged — it returns the empty mapping, dropping
every key. -/
theorem claim8_counterexample :
    sanitizeArgs (.obj []) (.obj [("a", .num 1)]) = .obj []
    ∧ sanitizeArgs (.obj []) (.obj [("a", .num 1)]) ≠ .obj [("a", .num 1)] := by
  refine ⟨rfl, ?_⟩
  intro h
  have h2 : JVal.obj [] = JVal.obj [("a", .num 1)] := by
    rw [← show sanitizeArgs (.obj []) (.obj [("a", .num 1)]) = .obj [] from rfl]
    exact h
  injection h2 with h3
  exact List.noConfusion h3

/-- C8 (amended): when schema introspection yields no truthy properties
value (missing or ill-typed `function`/`parameters`/`properties`), the
sanitizer's allow-list is empty and it returns the empty mapping — it
does not pass the resolved arguments through. The arguments come back
unchanged only via the `catch`, e.g. when a truthy schema faces a
non-object argument value and the `in` test throws. -/
theorem claim8_malformed_schema_empties_args :
    (∀ (toolDef rawArgs : JVal), truthy (schemaProps toolDef) = false →
      sanitizeArgs toolDef rawArgs = .obj [])
    ∧ sanitizeArgs (demoSchema "a") (.str "boom") = .str "boom" := by
  refine ⟨?_, rfl⟩
  intro toolDef rawArgs h
  unfold sanitizeArgs
  show (match buildClean (if truthy (schemaProps toolDef) = true
      then jsObjectKeys (schemaProps toolDef) else []) rawArgs with
    | some clean => JVal.obj clean
    | none => rawArgs) = JVal.obj []
  rw [h]
  rfl

/-- Witness for C8 (amended): a `null` tool definition drops every
argument key. -/
theorem claim8_witness :
    sanitizeArgs .null (.obj [("b", .num 2)]) = .obj [] :=
  claim8_malformed_schema_empties_args.1 .null (.obj [("b", .num 2)]) (by rfl)
